import Mathlib

/-! casbin-server: adapter selection and configuration loading

A shallow embedding of `server/adapter.go`:

* `LoadConfiguration` reads the JSON configuration file and interpolates
  environment variables into its `Connection` field with the regular
  expression `\$\b(\w*)\b`;
* `checkLocalConfig` merges the loaded configuration into the request;
* `newAdapter` dispatches on the driver name.

The operating system (environment, file system), the JSON decoder and the two
adapter libraries are explicit parameters collected in `World`.  The regular
expression is interpreted by a small backtracking matcher with the
leftmost-first, greedy semantics of Go's `regexp` package.
-/

namespace Casbin

/-! ## Regular expressions (the fragment used by `adapter.go`) -/

/-- Class `\w` of Go's `regexp`: the ASCII word characters `[0-9A-Za-z_]`. -/
def isWordChar (c : Char) : Bool :=
  c.isAlphanum || c == '_'

/-- Pieces of a pattern: a literal character, the assertion `\b`, and the
greedy repetition `\w*` (the capture group around it does not change what the
whole pattern matches). -/
inductive Atom where
  | lit (c : Char)
  | wordBoundary
  | wordStar
  deriving DecidableEq, Repr

/-- Whether a neighbouring position holds a word character; the outside of the
text counts as a non-word character. -/
def isWordAt : Option Char → Bool
  | some c => isWordChar c
  | none => false

/-- Assertion `\b` between the previous character `prev` and the text `rest`:
exactly one of the two sides is a word character. -/
def atWordBoundary (prev : Option Char) (rest : List Char) : Bool :=
  isWordAt prev != isWordAt rest.head?

/-- Greedy `\w*` followed by the continuation `k`: take one more word character
when the remainder of the pattern can still succeed after it, otherwise stop
here.  The result is the number of characters consumed. -/
def wordStarThen (k : Option Char → List Char → Option Nat) :
    Option Char → List Char → Option Nat
  | prev, [] => k prev []
  | prev, c :: cs =>
    if isWordChar c then
      match wordStarThen k (some c) cs with
      | some n => some (n + 1)
      | none => k prev (c :: cs)
    else k prev (c :: cs)

/-- Match a pattern at the start of `rest` (with `prev` the character before
it), preferring the first alternative that succeeds as a backtracking matcher
does.  Returns the length of the match. -/
def matchHere : List Atom → Option Char → List Char → Option Nat
  | [], _, _ => some 0
  | Atom.lit c :: as, _, rest =>
    match rest with
    | [] => none
    | x :: xs => if x = c then (matchHere as (some x) xs).map (· + 1) else none
  | Atom.wordBoundary :: as, prev, rest =>
    if atWordBoundary prev rest then matchHere as prev rest else none
  | Atom.wordStar :: as, prev, rest => wordStarThen (matchHere as) prev rest

/-- The loop of `regexp.ReplaceAllStringFunc` (`replaceAll` in Go's `regexp`):
scan from left to right; at each position try the pattern; copy a character
that starts no match; on a match append `repl` of the matched text and continue
after it.  `skip` counts the characters of the current match still to be passed
over.  An empty match inserts its replacement, unless it lies immediately after
another match (`fresh` is false there), and then the character at that position
is copied. -/
def replaceLoop (re : List Atom) (repl : List Char → List Char) :
    Nat → Bool → Option Char → List Char → List Char
  | _, fresh, prev, [] =>
    match matchHere re prev [] with
    | some _ => if fresh then repl [] else []
    | none => []
  | skip + 1, _, _, c :: cs => replaceLoop re repl skip false (some c) cs
  | 0, fresh, prev, c :: cs =>
    match matchHere re prev (c :: cs) with
    | some (n + 1) =>
      repl ((c :: cs).take (n + 1)) ++ replaceLoop re repl n false (some c) cs
    | some 0 =>
      (if fresh then repl [] else []) ++ c :: replaceLoop re repl 0 true (some c) cs
    | none => c :: replaceLoop re repl 0 true (some c) cs

/-- Function `(*Regexp).ReplaceAllStringFunc`. -/
def ReplaceAllStringFunc (re : List Atom) (src : String) (repl : String → String) : String :=
  String.mk (replaceLoop re (fun m => (repl (String.mk m)).data) 0 true none src.data)

/-- Function `strings.TrimPrefix`. -/
def TrimPrefix (s pre : String) : String :=
  if pre.data.isPrefixOf s.data then String.mk (s.data.drop pre.data.length) else s

/-- The pattern `\$\b(\w*)\b` compiled in `LoadConfiguration`. -/
def connectionPattern : List Atom :=
  [Atom.lit '$', Atom.wordBoundary, Atom.wordStar, Atom.wordBoundary]

/-! ## Data model -/

/-- The configuration file, `type Config struct`. -/
structure Config where
  Driver : String
  Connection : String
  Enforcer : String
  DBSpecified : Bool
  deriving DecidableEq, Repr

/-- The fields of `pb.NewAdapterRequest` that `adapter.go` reads and writes. -/
structure NewAdapterRequest where
  DriverName : String
  ConnectString : String
  DbSpecified : Bool
  deriving DecidableEq, Repr

/-- Values of Go's `error` interface seen by this package: its own sentinel
`errDriverName` (an unexported variable made by `errors.New`, so no other
package can produce a value equal to it) and errors `e : ε` coming from the
operating system, the JSON decoder or the ORM adapter. -/
inductive Error (ε : Type) where
  | errDriverName
  | foreign (e : ε)
  deriving DecidableEq, Repr

/-- Equality of results is decidable when equality of errors and of values is. -/
instance decEqExcept {ε α : Type} [DecidableEq ε] [DecidableEq α] :
    DecidableEq (Except ε α)
  | .ok a, .ok b =>
    if h : a = b then isTrue (congrArg Except.ok h) else isFalse (fun h' => h (Except.ok.inj h'))
  | .error a, .error b =>
    if h : a = b then isTrue (congrArg Except.error h)
    else isFalse (fun h' => h (Except.error.inj h'))
  | .ok _, .error _ => isFalse (fun h => Except.noConfusion h)
  | .error _, .ok _ => isFalse (fun h => Except.noConfusion h)

/-- Text of `errDriverName`. -/
def errDriverNameText : String :=
  "currently supported DriverName: file | mysql | postgres | mssql"

/-- Everything `adapter.go` reaches outside itself: the process environment
(`none` for an unset variable), `os.Open`, the test `errors.Is(err,
fs.ErrNotExist)`, `json.NewDecoder(f).Decode` into a fresh `Config`,
`fileAdapter.NewAdapter` and `gormAdapter.NewAdapter`. -/
structure World (ε File α : Type) where
  LookupEnv : String → Option String
  Open : String → Except ε File
  isNotExist : ε → Bool
  Decode : File → Except ε Config
  fileNewAdapter : String → α
  gormNewAdapter : String → String → Bool → Except ε α

variable {ε File α : Type}

/-- Function `os.Getenv`: the value of the variable, empty when it is unset. -/
def Getenv (w : World ε File α) (key : String) : String :=
  (w.LookupEnv key).getD ""

/-! ## The program -/

def configFileDefaultPath : String := "config/connection_config.json"

def configFilePathEnvironmentVariable : String := "CONNECTION_CONFIG_PATH"

def getLocalConfigPath (w : World ε File α) : String :=
  let configFilePath := Getenv w configFilePathEnvironmentVariable
  if configFilePath = "" then configFileDefaultPath else configFilePath

/-- The rewriting of `c.Connection` in `LoadConfiguration`:
`re.ReplaceAllStringFunc(c.Connection, func(s) { return os.Getenv(strings.TrimPrefix(s, "$")) })`. -/
def interpolate (w : World ε File α) (connection : String) : String :=
  ReplaceAllStringFunc connectionPattern connection
    (fun s => Getenv w (TrimPrefix s "$"))

def LoadConfiguration (w : World ε File α) (file : String) : Except (Error ε) Config :=
  let c : Config := ⟨"", "", "", false⟩
  match w.Open file with
  | .error err => if w.isNotExist err then .ok c else .error (.foreign err)
  | .ok configFile =>
    match w.Decode configFile with
    | .error err => .error (.foreign err)
    | .ok c => .ok { c with Connection := interpolate w c.Connection }

def checkLocalConfig (w : World ε File α) (req : NewAdapterRequest) :
    Except (Error ε) NewAdapterRequest :=
  match LoadConfiguration w (getLocalConfigPath w) with
  | .error err => .error err
  | .ok cfg =>
    if req.ConnectString = "" ∨ req.DriverName = "" then
      .ok { DriverName := cfg.Driver, ConnectString := cfg.Connection,
            DbSpecified := cfg.DBSpecified }
    else .ok req

/-- The array `supportDriverNames` of `newAdapter`. -/
def supportDriverNames : List String := ["file", "mysql", "postgres", "mssql"]

/-- The loop over `supportDriverNames` in `newAdapter`: `support` becomes true
at the first entry equal to the driver name. -/
def support (driverName : String) : List String → Bool
  | [] => false
  | name :: names => if name = driverName then true else support driverName names

/-- Body of `newAdapter` with the whitelist array as a parameter. -/
def newAdapterWith (names : List String) (w : World ε File α) (req : NewAdapterRequest) :
    Except (Error ε) α :=
  match checkLocalConfig w req with
  | .error err => .error err
  | .ok r =>
    if r.DriverName = "file" then .ok (w.fileNewAdapter r.ConnectString)
    else if support r.DriverName names then
      match w.gormNewAdapter r.DriverName r.ConnectString r.DbSpecified with
      | .error err => .error (.foreign err)
      | .ok a => .ok a
    else .error .errDriverName

def newAdapter (w : World ε File α) (req : NewAdapterRequest) : Except (Error ε) α :=
  newAdapterWith supportDriverNames w req

/-- The hypothetical variant of `newAdapter` whose whitelist no longer holds
`"file"`. -/
def newAdapterFileRemoved (w : World ε File α) (req : NewAdapterRequest) :
    Except (Error ε) α :=
  newAdapterWith ["mysql", "postgres", "mssql"] w req

/-! ## Vocabulary of the statements -/

/-- The three fields of a request that the merge rule speaks about. -/
def NewAdapterRequest.triple (r : NewAdapterRequest) : String × String × Bool :=
  (r.DriverName, r.ConnectString, r.DbSpecified)

/-- The three fields of a configuration that the merge rule copies. -/
def Config.triple (c : Config) : String × String × Bool :=
  (c.Driver, c.Connection, c.DBSpecified)

/-- Length of the placeholder at the start of a text, in closed form: a `$`
followed by at least one word character, extended to the whole run. -/
def placeholderLen : List Char → Option Nat
  | [] => none
  | x :: rest =>
    if x = '$' ∧ isWordAt rest.head? = true then
      some ((rest.takeWhile isWordChar).length + 1)
    else none

/-- The replacement function handed to `ReplaceAllStringFunc` in
`LoadConfiguration`, on character lists. -/
def envRepl (w : World ε File α) (m : List Char) : List Char :=
  (Getenv w (TrimPrefix (String.mk m) "$")).data

/-- The text `l0 $n1 l1 ... $nk lk`, given `l0` and the pairs `(ni, li)`. -/
def placeholderText : List Char → List (List Char × List Char) → List Char
  | l0, [] => l0
  | l0, (n, l) :: segs => l0 ++ '$' :: (n ++ placeholderText l segs)

/-- The text `l0 v1 l1 ... vk lk`, where `vi` is the value of `ni` in the
environment of `w`, empty when `ni` is unset. -/
def substitutedText (w : World ε File α) :
    List Char → List (List Char × List Char) → List Char
  | l0, [] => l0
  | l0, (n, l) :: segs => l0 ++ ((Getenv w (String.mk n)).data ++ substitutedText w l segs)

/-- Whether a text holds no placeholder: no `$` in it is followed by a word
character. -/
def bareOnly : List Char → Bool
  | [] => true
  | c :: cs => (c != '$' || !isWordAt cs.head?) && bareOnly cs

/-- Cut a text into its leading literal and the pairs (name, literal after
it) of its placeholders, reading a `$` followed by a word character as the
start of a name that extends over the whole run of word characters. -/
def splitPlaceholders : List Char → List Char × List (List Char × List Char)
  | [] => ([], [])
  | c :: cs =>
    let r := splitPlaceholders cs
    if c = '$' ∧ isWordAt r.1.head? = true then
      ([], (r.1.takeWhile isWordChar, r.1.dropWhile isWordChar) :: r.2)
    else (c :: r.1, r.2)

/-! ## Concrete worlds used for evaluation -/

/-- A world with an empty environment and no configuration file; the adapter
handles record how they were built. -/
def bareWorld : World String String String where
  LookupEnv := fun _ => none
  Open := fun _ => .error "no such file"
  isNotExist := fun e => e = "no such file"
  Decode := fun _ => .error "unexpected end of JSON input"
  fileNewAdapter := fun path => "file:" ++ path
  gormNewAdapter := fun d c _ => if c = "" then .error "dial failed" else .ok (d ++ ":" ++ c)

/-- A world whose configuration file decodes to `p`, with environment `env`. -/
def fileWorld (env : String → Option String) (p : Config) : World String String String :=
  { bareWorld with LookupEnv := env, Open := fun _ => .ok "{}", Decode := fun _ => .ok p }

/-- Environment with `HOST=db1` only. -/
def hostEnv (key : String) : Option String :=
  if key = "HOST" then some "db1" else none

/-- Environment with `A=$B` and `B=x`. -/
def nestedEnv (key : String) : Option String :=
  if key = "A" then some "$B" else if key = "B" then some "x" else none

/-- A world whose configuration file exists but does not hold valid JSON. -/
def malformedWorld : World String String String :=
  { bareWorld with Open := fun _ => .ok "[1, 2" }

/-- A world whose configuration file exists but may not be read. -/
def deniedWorld : World String String String :=
  { bareWorld with Open := fun _ => .error "permission denied" }

/-- Environment in which `CONNECTION_CONFIG_PATH` is set to the empty string. -/
def emptyPathEnv (key : String) : Option String :=
  if key = "CONNECTION_CONFIG_PATH" then some "" else none

/-- Environment in which `CONNECTION_CONFIG_PATH` is set to `/etc/casbin.json`. -/
def customPathEnv (key : String) : Option String :=
  if key = "CONNECTION_CONFIG_PATH" then some "/etc/casbin.json" else none

/-- Environment with `HOST=h` and `HOST1=h1`. -/
def numberedEnv (key : String) : Option String :=
  if key = "HOST" then some "h" else if key = "HOST1" then some "h1" else none

/-! ## Configuration merge (`checkLocalConfig`) -/

theorem checkLocalConfig_of_load {w : World ε File α} {cfg : Config}
    (h : LoadConfiguration w (getLocalConfigPath w) = .ok cfg) (req : NewAdapterRequest) :
    checkLocalConfig w req = .ok
      (if req.ConnectString = "" ∨ req.DriverName = "" then
        { DriverName := cfg.Driver, ConnectString := cfg.Connection,
          DbSpecified := cfg.DBSpecified }
      else req) := by
  unfold checkLocalConfig
  rw [h]
  by_cases hc : req.ConnectString = "" ∨ req.DriverName = ""
  · simp only [if_pos hc]
  · simp only [if_neg hc]

theorem LoadConfiguration_absent {w : World ε File α} {file : String} {e : ε}
    (hopen : w.Open file = .error e) (hne : w.isNotExist e = true) :
    LoadConfiguration w file = .ok ⟨"", "", "", false⟩ := by
  unfold LoadConfiguration
  simp only [hopen, hne, if_true]

theorem LoadConfiguration_parsed {w : World ε File α} {file : String} {f : File} {p : Config}
    (hopen : w.Open file = .ok f) (hdec : w.Decode f = .ok p) :
    LoadConfiguration w file = .ok { p with Connection := interpolate w p.Connection } := by
  unfold LoadConfiguration
  simp only [hopen, hdec]

/-- C1 as stated does not hold: with no configuration file, the request
`(mysql, "", true)` has exactly one of the two fields empty, yet the result is
the configuration's triple `("", "", false)` and not the caller's own. -/
theorem checkLocalConfig_verbatim_unless_both_empty_fails :
    ¬ ∀ (w : World String String String) (req : NewAdapterRequest) (cfg : Config),
      LoadConfiguration w (getLocalConfigPath w) = .ok cfg →
      ∃ r, checkLocalConfig w req = .ok r ∧
        (req.DriverName = "" ∧ req.ConnectString = "" → r.triple = cfg.triple) ∧
        (¬ (req.DriverName = "" ∧ req.ConnectString = "") → r.triple = req.triple) := by
  intro h
  obtain ⟨r, hr, -, h2⟩ := h bareWorld ⟨"mysql", "", true⟩ ⟨"", "", "", false⟩ (by decide)
  have hr2 : checkLocalConfig bareWorld ⟨"mysql", "", true⟩ = .ok ⟨"", "", false⟩ := by decide
  rw [hr2] at hr
  have hreq : r = ⟨"", "", false⟩ := (Except.ok.inj hr).symm
  subst hreq
  exact absurd (h2 (by decide)) (by decide)

/-- C1 (amended): when the configuration loads as `cfg`, `checkLocalConfig`
returns the configuration's triple as soon as `DriverName` or `ConnectString`
is empty (both, or exactly one), and the caller's own triple when both are
non-empty. -/
theorem checkLocalConfig_merge_rule (w : World ε File α) (req : NewAdapterRequest)
    (cfg : Config) (h : LoadConfiguration w (getLocalConfigPath w) = .ok cfg) :
    ∃ r, checkLocalConfig w req = .ok r ∧
      (req.DriverName = "" ∨ req.ConnectString = "" → r.triple = cfg.triple) ∧
      (req.DriverName ≠ "" ∧ req.ConnectString ≠ "" → r.triple = req.triple) := by
  refine ⟨_, checkLocalConfig_of_load h req, ?_, ?_⟩
  · intro hc
    rw [if_pos hc.symm]
    rfl
  · intro hc
    rw [if_neg (by tauto)]

theorem checkLocalConfig_merge_rule_witness :
    LoadConfiguration bareWorld (getLocalConfigPath bareWorld) = .ok ⟨"", "", "", false⟩ ∧
    ∃ r, checkLocalConfig bareWorld ⟨"mysql", "", true⟩ = .ok r ∧
      (("mysql" : String) = "" ∨ ("" : String) = "" →
        r.triple = (⟨"", "", "", false⟩ : Config).triple) ∧
      (("mysql" : String) ≠ "" ∧ ("" : String) ≠ "" →
        r.triple = (⟨"mysql", "", true⟩ : NewAdapterRequest).triple) :=
  ⟨by decide, checkLocalConfig_merge_rule bareWorld ⟨"mysql", "", true⟩ ⟨"", "", "", false⟩
    (by decide)⟩

/-- C2: a request whose `DriverName` and `ConnectString` are both non-empty
comes back from `checkLocalConfig` unchanged and without error, whether the
configuration file is absent or decodes to any configuration. -/
theorem checkLocalConfig_complete_request_unchanged (w : World ε File α)
    (req : NewAdapterRequest) (hd : req.DriverName ≠ "") (hc : req.ConnectString ≠ "")
    (hfile : (∃ e, w.Open (getLocalConfigPath w) = .error e ∧ w.isNotExist e = true) ∨
      (∃ f p, w.Open (getLocalConfigPath w) = .ok f ∧ w.Decode f = .ok p)) :
    checkLocalConfig w req = .ok req := by
  have hcond : ¬ (req.ConnectString = "" ∨ req.DriverName = "") := by tauto
  rcases hfile with ⟨e, hopen, hne⟩ | ⟨f, p, hopen, hdec⟩
  · rw [checkLocalConfig_of_load (LoadConfiguration_absent hopen hne) req, if_neg hcond]
  · rw [checkLocalConfig_of_load (LoadConfiguration_parsed hopen hdec) req, if_neg hcond]

theorem checkLocalConfig_complete_request_unchanged_witness :
    checkLocalConfig (fileWorld hostEnv ⟨"postgres", "host=$HOST", "e", true⟩)
      ⟨"mysql", "dsn", false⟩ = .ok ⟨"mysql", "dsn", false⟩ :=
  checkLocalConfig_complete_request_unchanged
    (fileWorld hostEnv ⟨"postgres", "host=$HOST", "e", true⟩) ⟨"mysql", "dsn", false⟩
    (by decide) (by decide)
    (Or.inr ⟨"{}", ⟨"postgres", "host=$HOST", "e", true⟩, rfl, rfl⟩)

/-- C3: for a request whose `DriverName` and `ConnectString` are both empty and
a configuration file that opens and decodes to `p`, `checkLocalConfig` returns
`p.Driver`, the interpolated `p.Connection` and `p.DBSpecified`. -/
theorem checkLocalConfig_empty_request_takes_file (w : World ε File α)
    (req : NewAdapterRequest) (_hd : req.DriverName = "") (hc : req.ConnectString = "")
    (f : File) (p : Config) (hopen : w.Open (getLocalConfigPath w) = .ok f)
    (hdec : w.Decode f = .ok p) :
    checkLocalConfig w req = .ok
      { DriverName := p.Driver, ConnectString := interpolate w p.Connection,
        DbSpecified := p.DBSpecified } := by
  rw [checkLocalConfig_of_load (LoadConfiguration_parsed hopen hdec) req,
    if_pos (Or.inl hc)]

theorem checkLocalConfig_empty_request_takes_file_witness :
    checkLocalConfig (fileWorld hostEnv ⟨"postgres", "host=$HOST", "e", true⟩)
      ⟨"", "", false⟩ = .ok ⟨"postgres", "host=db1", true⟩ :=
  checkLocalConfig_empty_request_takes_file
    (fileWorld hostEnv ⟨"postgres", "host=$HOST", "e", true⟩) ⟨"", "", false⟩ rfl rfl
    "{}" ⟨"postgres", "host=$HOST", "e", true⟩ rfl rfl

/-- C4: when opening `file` fails because it does not exist,
`LoadConfiguration` returns the zero-valued `Config` and no error; when that
file is the configured path, `checkLocalConfig` on a request with empty
`DriverName` and `ConnectString` returns `("", "", false)` and no error. -/
theorem missing_file_gives_zero_config (w : World ε File α) (file : String) (e : ε)
    (hopen : w.Open file = .error e) (hne : w.isNotExist e = true) :
    LoadConfiguration w file
        = .ok { Driver := "", Connection := "", Enforcer := "", DBSpecified := false } ∧
      (file = getLocalConfigPath w → ∀ req : NewAdapterRequest,
        req.DriverName = "" → req.ConnectString = "" →
        checkLocalConfig w req
          = .ok { DriverName := "", ConnectString := "", DbSpecified := false }) := by
  refine ⟨LoadConfiguration_absent hopen hne, ?_⟩
  intro hfile req _ hc
  subst hfile
  rw [checkLocalConfig_of_load (LoadConfiguration_absent hopen hne) req, if_pos (Or.inl hc)]

theorem missing_file_gives_zero_config_witness :
    LoadConfiguration bareWorld "config/connection_config.json" = .ok ⟨"", "", "", false⟩ ∧
      checkLocalConfig bareWorld ⟨"", "", true⟩ = .ok ⟨"", "", false⟩ :=
  have h := missing_file_gives_zero_config bareWorld "config/connection_config.json"
    "no such file" rfl (by decide)
  ⟨h.1, h.2 (by decide) ⟨"", "", true⟩ rfl rfl⟩

/-! ## Driver dispatch (`newAdapter`) -/

theorem support_iff_mem (driverName : String) (names : List String) :
    support driverName names = true ↔ driverName ∈ names := by
  induction names with
  | nil => simp [support]
  | cons name names ih =>
    unfold support
    by_cases h : name = driverName
    · simp [h]
    · have h' : ¬ driverName = name := fun e => h e.symm
      simp [h, h', ih]

theorem newAdapterWith_of_check {w : World ε File α} {req r : NewAdapterRequest}
    (h : checkLocalConfig w req = .ok r) (names : List String) :
    newAdapterWith names w req =
      if r.DriverName = "file" then .ok (w.fileNewAdapter r.ConnectString)
      else if support r.DriverName names then
        match w.gormNewAdapter r.DriverName r.ConnectString r.DbSpecified with
        | .error err => .error (.foreign err)
        | .ok a => .ok a
      else .error .errDriverName := by
  unfold newAdapterWith
  rw [h]

/-- C5: when `checkLocalConfig` succeeds with the resolved request `r`,
`newAdapter` returns `errDriverName` exactly when `r.DriverName` is none of
`file`, `mysql`, `postgres`, `mssql`; the text of that error names each of the
four; and the resolved driver `oracle` fails with it. -/
theorem newAdapter_errDriverName_iff (w : World ε File α) (req r : NewAdapterRequest)
    (h : checkLocalConfig w req = .ok r) :
    (newAdapter w req = .error .errDriverName ↔
        r.DriverName ∉ ["file", "mysql", "postgres", "mssql"]) ∧
      (∀ d ∈ ["file", "mysql", "postgres", "mssql"], d.data <:+: errDriverNameText.data) ∧
      (r.DriverName = "oracle" → newAdapter w req = .error .errDriverName) := by
  have key : newAdapter w req = .error .errDriverName ↔
      r.DriverName ∉ ["file", "mysql", "postgres", "mssql"] := by
    unfold newAdapter
    rw [newAdapterWith_of_check h]
    by_cases hf : r.DriverName = "file"
    · rw [if_pos hf]
      constructor
      · intro hx
        exact Except.noConfusion hx
      · intro hx
        exact absurd (by rw [hf]; decide) hx
    · rw [if_neg hf]
      by_cases hs : support r.DriverName supportDriverNames = true
      · rw [if_pos hs]
        have hmem := (support_iff_mem _ _).1 hs
        constructor
        · intro hx
          cases hg : w.gormNewAdapter r.DriverName r.ConnectString r.DbSpecified with
          | error err =>
            rw [hg] at hx
            exact Error.noConfusion (Except.error.inj hx)
          | ok a =>
            rw [hg] at hx
            exact Except.noConfusion hx
        · intro hx
          exact absurd hmem hx
      · rw [if_neg hs]
        constructor
        · intro _ hmem
          exact hs ((support_iff_mem _ _).2 hmem)
        · intro _
          rfl
  refine ⟨key, by decide, ?_⟩
  intro ho
  exact key.2 (by rw [ho]; decide)

theorem newAdapter_errDriverName_iff_witness :
    (newAdapter bareWorld ⟨"oracle", "sid", false⟩ = .error .errDriverName ↔
        "oracle" ∉ ["file", "mysql", "postgres", "mssql"]) ∧
      (∀ d ∈ ["file", "mysql", "postgres", "mssql"], d.data <:+: errDriverNameText.data) ∧
      (("oracle" : String) = "oracle" →
        newAdapter bareWorld ⟨"oracle", "sid", false⟩ = .error .errDriverName) :=
  newAdapter_errDriverName_iff bareWorld ⟨"oracle", "sid", false⟩ ⟨"oracle", "sid", false⟩
    (by decide)

/-- C6: when the resolved driver is `mysql`, `postgres` or `mssql`, the result
of `newAdapter` is the result of the ORM-adapter constructor applied to the
resolved driver name, connection string and db-specified flag: its error is
returned unchanged and its adapter is returned without error. -/
theorem newAdapter_delegates_to_gorm (w : World ε File α) (req r : NewAdapterRequest)
    (h : checkLocalConfig w req = .ok r)
    (hd : r.DriverName ∈ ["mysql", "postgres", "mssql"]) :
    (∀ err, w.gormNewAdapter r.DriverName r.ConnectString r.DbSpecified = .error err →
        newAdapter w req = .error (.foreign err)) ∧
      (∀ a, w.gormNewAdapter r.DriverName r.ConnectString r.DbSpecified = .ok a →
        newAdapter w req = .ok a) := by
  have hf : r.DriverName ≠ "file" := by
    intro hx
    rw [hx] at hd
    exact absurd hd (by decide)
  have hs : support r.DriverName supportDriverNames = true :=
    (support_iff_mem _ _).2 (List.mem_cons_of_mem _ hd)
  unfold newAdapter
  rw [newAdapterWith_of_check h, if_neg hf, if_pos hs]
  constructor
  · intro err hg
    rw [hg]
  · intro a hg
    rw [hg]

theorem newAdapter_delegates_to_gorm_witness :
    (∀ err, bareWorld.gormNewAdapter "postgres" "host=db1" true = .error err →
        newAdapter bareWorld ⟨"postgres", "host=db1", true⟩ = .error (.foreign err)) ∧
      (∀ a, bareWorld.gormNewAdapter "postgres" "host=db1" true = .ok a →
        newAdapter bareWorld ⟨"postgres", "host=db1", true⟩ = .ok a) :=
  newAdapter_delegates_to_gorm bareWorld ⟨"postgres", "host=db1", true⟩
    ⟨"postgres", "host=db1", true⟩ (by decide) (by decide)

/-- C7: when the resolved driver is `file`, `newAdapter` returns without error
the adapter that the file-adapter constructor builds from the resolved
connection string; and on every input `newAdapter` agrees with its variant
whose whitelist is `mysql`, `postgres`, `mssql` only. -/
theorem newAdapter_file_bypasses_whitelist (w : World ε File α) (req : NewAdapterRequest) :
    (∀ r, checkLocalConfig w req = .ok r → r.DriverName = "file" →
        newAdapter w req = .ok (w.fileNewAdapter r.ConnectString)) ∧
      newAdapter w req = newAdapterFileRemoved w req := by
  constructor
  · intro r h hf
    unfold newAdapter
    rw [newAdapterWith_of_check h, if_pos hf]
  · unfold newAdapter newAdapterFileRemoved
    cases h : checkLocalConfig w req with
    | error err => simp only [newAdapterWith, h]
    | ok r =>
      rw [newAdapterWith_of_check h, newAdapterWith_of_check h]
      by_cases hf : r.DriverName = "file"
      · rw [if_pos hf, if_pos hf]
      · rw [if_neg hf, if_neg hf]
        have hsame : support r.DriverName supportDriverNames
            = support r.DriverName ["mysql", "postgres", "mssql"] := by
          have hne : ¬ ("file" = r.DriverName) := fun e => hf e.symm
          simp only [supportDriverNames, support, if_neg hne]
        rw [hsame]

theorem newAdapter_file_bypasses_whitelist_witness :
    (∀ r, checkLocalConfig bareWorld ⟨"file", "policy.csv", false⟩ = .ok r →
        r.DriverName = "file" →
        newAdapter bareWorld ⟨"file", "policy.csv", false⟩
          = .ok (bareWorld.fileNewAdapter r.ConnectString)) ∧
      newAdapter bareWorld ⟨"file", "policy.csv", false⟩
        = newAdapterFileRemoved bareWorld ⟨"file", "policy.csv", false⟩ :=
  newAdapter_file_bypasses_whitelist bareWorld ⟨"file", "policy.csv", false⟩

/-! ## What the pattern `\$\b(\w*)\b` matches -/

theorem placeholderLen_cons (x : Char) (rest : List Char) :
    placeholderLen (x :: rest)
      = if x = '$' ∧ isWordAt rest.head? = true then
          some ((rest.takeWhile isWordChar).length + 1)
        else none := rfl

theorem matchHere_boundary (prev : Option Char) (rest : List Char) :
    matchHere [Atom.wordBoundary] prev rest
      = if atWordBoundary prev rest then some 0 else none := rfl

theorem matchHere_after_dollar (prev : Option Char) (rest : List Char) :
    matchHere [Atom.wordBoundary, Atom.wordStar, Atom.wordBoundary] prev rest
      = if atWordBoundary prev rest then
          wordStarThen (matchHere [Atom.wordBoundary]) prev rest
        else none := rfl

theorem matchHere_dollar (prev : Option Char) (x : Char) (rest : List Char) :
    matchHere connectionPattern prev (x :: rest)
      = if x = '$' then
          (matchHere [Atom.wordBoundary, Atom.wordStar, Atom.wordBoundary] (some x) rest).map
            (· + 1)
        else none := rfl

theorem atWordBoundary_of_word {prev : Option Char} {rest : List Char}
    (hp : isWordAt prev = true) (hr : isWordAt rest.head? = false) :
    atWordBoundary prev rest = true := by
  unfold atWordBoundary
  rw [hp, hr]
  rfl

theorem atWordBoundary_after_dollar (rest : List Char) :
    atWordBoundary (some '$') rest = isWordAt rest.head? := by
  unfold atWordBoundary
  have hd : isWordAt (some '$') = false := by decide
  rw [hd]
  cases isWordAt rest.head? <;> rfl

theorem wordStarThen_boundary_of_word (rest : List Char) :
    ∀ prev : Option Char, isWordAt prev = true →
      wordStarThen (matchHere [Atom.wordBoundary]) prev rest
        = some (rest.takeWhile isWordChar).length := by
  induction rest with
  | nil =>
    intro prev hp
    have hb : atWordBoundary prev [] = true := atWordBoundary_of_word hp rfl
    simp only [wordStarThen, matchHere_boundary, hb, if_true, List.takeWhile_nil,
      List.length_nil]
  | cons c cs ih =>
    intro prev hp
    by_cases hc : isWordChar c = true
    · have h := ih (some c) hc
      simp only [wordStarThen, hc, if_true, h, List.takeWhile_cons, List.length_cons]
    · have hc' : isWordChar c = false := by simpa using hc
      have hb : atWordBoundary prev (c :: cs) = true := atWordBoundary_of_word hp hc'
      simp [wordStarThen, hc', matchHere_boundary, hb, List.takeWhile_cons]

theorem matchHere_connectionPattern (prev : Option Char) (s : List Char) :
    matchHere connectionPattern prev s = placeholderLen s := by
  cases s with
  | nil => rfl
  | cons x rest =>
    rw [matchHere_dollar, placeholderLen_cons]
    by_cases hx : x = '$'
    · subst hx
      rw [if_pos rfl, matchHere_after_dollar, atWordBoundary_after_dollar]
      cases rest with
      | nil => rfl
      | cons c cs =>
        by_cases hc : isWordChar c = true
        · have hh : isWordAt (c :: cs).head? = true := hc
          have h := wordStarThen_boundary_of_word cs (some c) hc
          rw [hh, if_pos rfl, if_pos ⟨rfl, rfl⟩]
          simp only [wordStarThen, hc, if_true, h, Option.map_some', List.takeWhile_cons,
            List.length_cons]
        · have hh : isWordAt (c :: cs).head? = false := by simpa [isWordAt] using hc
          rw [hh, if_neg (by simp), if_neg (by simp)]
          rfl
    · rw [if_neg hx, if_neg (fun h => hx h.1)]

theorem placeholderLen_ne_zero (s : List Char) : placeholderLen s ≠ some 0 := by
  cases s with
  | nil => simp [placeholderLen]
  | cons x rest =>
    rw [placeholderLen_cons]
    by_cases hc : x = '$' ∧ isWordAt rest.head? = true
    · rw [if_pos hc]
      simp
    · rw [if_neg hc]
      simp

theorem placeholderLen_le {x : Char} {rest : List Char} {n : Nat}
    (h : placeholderLen (x :: rest) = some (n + 1)) : n ≤ rest.length := by
  rw [placeholderLen_cons] at h
  by_cases hc : x = '$' ∧ isWordAt rest.head? = true
  · rw [if_pos hc] at h
    have h' := Option.some.inj h
    have hle := (List.takeWhile_sublist (l := rest) isWordChar).length_le
    omega
  · rw [if_neg hc] at h
    exact Option.noConfusion h

theorem takeWhile_append_of_head (a b : List Char) (hb : isWordAt b.head? = false) :
    (a ++ b).takeWhile isWordChar = a.takeWhile isWordChar := by
  induction a with
  | nil =>
    cases b with
    | nil => rfl
    | cons c cs =>
      have hc : isWordChar c = false := hb
      simp [List.takeWhile, hc]
  | cons x xs ih =>
    by_cases hx : isWordChar x = true
    · simp [List.takeWhile, hx, ih]
    · simp [List.takeWhile, hx]

theorem head_append_of_head (a b : List Char) (hb : isWordAt b.head? = false) :
    isWordAt (a ++ b).head? = isWordAt a.head? := by
  cases a with
  | nil => simpa [isWordAt] using hb
  | cons x xs => rfl

theorem placeholderLen_append (a b : List Char) (ha : a ≠ [])
    (hb : isWordAt b.head? = false) : placeholderLen (a ++ b) = placeholderLen a := by
  cases a with
  | nil => exact absurd rfl ha
  | cons x xs =>
    rw [List.cons_append, placeholderLen_cons, placeholderLen_cons,
      head_append_of_head xs b hb, takeWhile_append_of_head xs b hb]

/-! ## The replacement loop on the connection pattern -/

theorem replaceLoop_nil (repl : List Char → List Char) (n : Nat) (fresh : Bool)
    (prev : Option Char) : replaceLoop connectionPattern repl n fresh prev [] = [] := by
  cases n <;> rfl

theorem replaceLoop_copy (repl : List Char → List Char) (fresh : Bool) (prev : Option Char)
    {c : Char} {cs : List Char} (h : placeholderLen (c :: cs) = none) :
    replaceLoop connectionPattern repl 0 fresh prev (c :: cs)
      = c :: replaceLoop connectionPattern repl 0 true (some c) cs := by
  have hm := matchHere_connectionPattern prev (c :: cs)
  rw [h] at hm
  simp only [replaceLoop, hm]

theorem replaceLoop_hit (repl : List Char → List Char) (fresh : Bool) (prev : Option Char)
    {c : Char} {cs : List Char} {n : Nat} (h : placeholderLen (c :: cs) = some (n + 1)) :
    replaceLoop connectionPattern repl 0 fresh prev (c :: cs)
      = repl ((c :: cs).take (n + 1))
        ++ replaceLoop connectionPattern repl n false (some c) cs := by
  have hm := matchHere_connectionPattern prev (c :: cs)
  rw [h] at hm
  simp only [replaceLoop, hm]

theorem replaceLoop_prev (repl : List Char → List Char) (n : Nat) (fresh : Bool)
    (prev : Option Char) (s : List Char) :
    replaceLoop connectionPattern repl n fresh prev s
      = replaceLoop connectionPattern repl n true none s := by
  cases s with
  | nil => rw [replaceLoop_nil, replaceLoop_nil]
  | cons c cs =>
    cases n with
    | succ n => rfl
    | zero =>
      cases hm : placeholderLen (c :: cs) with
      | none => rw [replaceLoop_copy repl fresh prev hm, replaceLoop_copy repl true none hm]
      | some m =>
        cases m with
        | zero => exact absurd hm (placeholderLen_ne_zero _)
        | succ m => rw [replaceLoop_hit repl fresh prev hm, replaceLoop_hit repl true none hm]

theorem replaceLoop_skip (repl : List Char → List Char) (b : List Char) :
    ∀ (a : List Char) (fresh : Bool) (prev : Option Char),
      replaceLoop connectionPattern repl a.length fresh prev (a ++ b)
        = replaceLoop connectionPattern repl 0 true none b := by
  intro a
  induction a with
  | nil =>
    intro fresh prev
    exact replaceLoop_prev repl 0 fresh prev b
  | cons c cs ih =>
    intro _ _
    exact ih false (some c)

theorem replaceLoop_append (repl : List Char → List Char) (b : List Char)
    (hb : isWordAt b.head? = false) :
    ∀ (a : List Char) (n : Nat) (fresh : Bool) (prev : Option Char), n ≤ a.length →
      replaceLoop connectionPattern repl n fresh prev (a ++ b)
        = replaceLoop connectionPattern repl n fresh prev a
          ++ replaceLoop connectionPattern repl 0 true none b := by
  intro a
  induction a with
  | nil =>
    intro n fresh prev hn
    have h0 : n = 0 := Nat.le_zero.mp hn
    subst h0
    rw [List.nil_append, replaceLoop_nil, List.nil_append]
    exact replaceLoop_prev repl 0 fresh prev b
  | cons c cs ih =>
    intro n fresh prev hn
    cases n with
    | succ n => exact ih n false (some c) (Nat.le_of_succ_le_succ hn)
    | zero =>
      have happ : placeholderLen (c :: (cs ++ b)) = placeholderLen (c :: cs) :=
        placeholderLen_append (c :: cs) b (List.cons_ne_nil c cs) hb
      cases hm : placeholderLen (c :: cs) with
      | none =>
        rw [hm] at happ
        rw [List.cons_append, replaceLoop_copy repl fresh prev happ,
          replaceLoop_copy repl fresh prev hm, ih 0 true (some c) (Nat.zero_le _),
          List.cons_append]
      | some m =>
        cases m with
        | zero => exact absurd hm (placeholderLen_ne_zero _)
        | succ m =>
          rw [hm] at happ
          have hle : m ≤ cs.length := placeholderLen_le hm
          have htake : (c :: (cs ++ b)).take (m + 1) = (c :: cs).take (m + 1) := by
            rw [← List.cons_append]
            exact List.take_append_of_le_length (Nat.succ_le_succ hle)
          rw [List.cons_append, replaceLoop_hit repl fresh prev happ,
            replaceLoop_hit repl fresh prev hm, htake, ih m false (some c) hle,
            List.append_assoc]

theorem replaceLoop_literal (repl : List Char → List Char) (r : List Char) :
    ∀ (l : List Char) (fresh : Bool) (prev : Option Char), '$' ∉ l →
      replaceLoop connectionPattern repl 0 fresh prev (l ++ r)
        = l ++ replaceLoop connectionPattern repl 0 true none r := by
  intro l
  induction l with
  | nil =>
    intro fresh prev _
    exact replaceLoop_prev repl 0 fresh prev r
  | cons c cs ih =>
    intro fresh prev hl
    have hc : ¬ (c = '$') := fun e => hl (by rw [e]; exact List.mem_cons_self _ _)
    have hcs : '$' ∉ cs := fun h => hl (List.mem_cons_of_mem _ h)
    have hm : placeholderLen (c :: (cs ++ r)) = none := by
      rw [placeholderLen_cons, if_neg (fun h => hc h.1)]
    rw [List.cons_append, replaceLoop_copy repl fresh prev hm, ih true (some c) hcs,
      List.cons_append]

theorem takeWhile_word_run (name post : List Char) (hn : ∀ c ∈ name, isWordChar c = true)
    (hp : isWordAt post.head? = false) : (name ++ post).takeWhile isWordChar = name := by
  rw [takeWhile_append_of_head name post hp]
  exact List.takeWhile_eq_self_iff.mpr hn

theorem placeholderLen_run (name post : List Char) (hne : name ≠ [])
    (hn : ∀ c ∈ name, isWordChar c = true) (hp : isWordAt post.head? = false) :
    placeholderLen ('$' :: (name ++ post)) = some (name.length + 1) := by
  have hhead : isWordAt (name ++ post).head? = true := by
    cases name with
    | nil => exact absurd rfl hne
    | cons x xs => exact hn x (List.mem_cons_self _ _)
  rw [placeholderLen_cons, if_pos ⟨rfl, hhead⟩, takeWhile_word_run name post hn hp]

theorem replaceLoop_placeholder (repl : List Char → List Char) (fresh : Bool)
    (prev : Option Char) (name post : List Char) (hne : name ≠ [])
    (hn : ∀ c ∈ name, isWordChar c = true) (hp : isWordAt post.head? = false) :
    replaceLoop connectionPattern repl 0 fresh prev ('$' :: (name ++ post))
      = repl ('$' :: name) ++ replaceLoop connectionPattern repl 0 true none post := by
  have hm := placeholderLen_run name post hne hn hp
  have htake : ('$' :: (name ++ post)).take (name.length + 1) = '$' :: name := by
    rw [List.take_succ_cons, List.take_left]
  rw [replaceLoop_hit repl fresh prev hm, htake,
    replaceLoop_skip repl post name false (some '$')]

theorem replaceLoop_bare_dollar (repl : List Char → List Char) (fresh : Bool)
    (prev : Option Char) (post : List Char) (hp : isWordAt post.head? = false) :
    replaceLoop connectionPattern repl 0 fresh prev ('$' :: post)
      = '$' :: replaceLoop connectionPattern repl 0 true none post := by
  have hm : placeholderLen ('$' :: post) = none := by
    rw [placeholderLen_cons, hp]
    rfl
  rw [replaceLoop_copy repl fresh prev hm, replaceLoop_prev]

/-! ## Interpolation of the `Connection` field -/

theorem interpolate_data (w : World ε File α) (s : String) :
    (interpolate w s).data = replaceLoop connectionPattern (envRepl w) 0 true none s.data := rfl

theorem envRepl_dollar (w : World ε File α) (name : List Char) :
    envRepl w ('$' :: name) = (Getenv w (String.mk name)).data := by
  have ht : TrimPrefix (String.mk ('$' :: name)) "$" = String.mk name := by
    have hd : ("$" : String).data = ['$'] := rfl
    unfold TrimPrefix
    rw [hd]
    simp [List.isPrefixOf]
  unfold envRepl
  rw [ht]

theorem head_placeholderText (l : List Char) (segs : List (List Char × List Char))
    (hl : isWordAt l.head? = false) : isWordAt (placeholderText l segs).head? = false := by
  cases segs with
  | nil => exact hl
  | cons seg segs =>
    obtain ⟨n, l1⟩ := seg
    cases l with
    | nil => rfl
    | cons c cs => exact hl

theorem replaceLoop_placeholderText (w : World ε File α)
    (segs : List (List Char × List Char)) :
    ∀ l0 : List Char, '$' ∉ l0 →
      (∀ seg ∈ segs, seg.1 ≠ [] ∧ (∀ c ∈ seg.1, isWordChar c = true) ∧ '$' ∉ seg.2 ∧
        isWordAt seg.2.head? = false) →
      replaceLoop connectionPattern (envRepl w) 0 true none (placeholderText l0 segs)
        = substitutedText w l0 segs := by
  induction segs with
  | nil =>
    intro l0 h0 _
    have h := replaceLoop_literal (envRepl w) [] l0 true none h0
    rw [List.append_nil, replaceLoop_nil, List.append_nil] at h
    exact h
  | cons seg segs ih =>
    intro l0 h0 hs
    obtain ⟨n, l⟩ := seg
    obtain ⟨hne, hn, hl, hhead⟩ := hs (n, l) (List.mem_cons_self _ _)
    have hrest := ih l hl (fun seg hmem => hs seg (List.mem_cons_of_mem _ hmem))
    show replaceLoop connectionPattern (envRepl w) 0 true none
        (l0 ++ '$' :: (n ++ placeholderText l segs))
      = l0 ++ ((Getenv w (String.mk n)).data ++ substitutedText w l segs)
    rw [replaceLoop_literal (envRepl w) _ l0 true none h0,
      replaceLoop_placeholder (envRepl w) true none n _ hne hn (head_placeholderText l segs hhead),
      envRepl_dollar, hrest]

/-- C8: for a connection string `l0 $n1 l1 ... $nk lk` in which no `li` holds a
`$`, every `ni` is a non-empty run of word characters and no `li` after a name
begins with a word character, interpolation yields `l0 v1 l1 ... vk lk` with
`vi` the value of `ni` in the environment, empty when unset; and that is the
`Connection` of the configuration `LoadConfiguration` returns. -/
theorem interpolate_placeholderText (w : World ε File α) (l0 : List Char)
    (segs : List (List Char × List Char)) (h0 : '$' ∉ l0)
    (hs : ∀ seg ∈ segs, seg.1 ≠ [] ∧ (∀ c ∈ seg.1, isWordChar c = true) ∧ '$' ∉ seg.2 ∧
      isWordAt seg.2.head? = false) :
    interpolate w (String.mk (placeholderText l0 segs)) = String.mk (substitutedText w l0 segs) ∧
      ∀ (file : String) (f : File) (p : Config), w.Open file = .ok f → w.Decode f = .ok p →
        p.Connection = String.mk (placeholderText l0 segs) →
        LoadConfiguration w file
          = .ok { p with Connection := String.mk (substitutedText w l0 segs) } := by
  have key : interpolate w (String.mk (placeholderText l0 segs))
      = String.mk (substitutedText w l0 segs) :=
    congrArg String.mk (replaceLoop_placeholderText w segs l0 h0 hs)
  refine ⟨key, ?_⟩
  intro file f p hopen hdec hconn
  rw [LoadConfiguration_parsed hopen hdec, hconn, key]

theorem interpolate_placeholderText_witness :
    interpolate (fileWorld hostEnv ⟨"mysql", "host=$HOST;user=$USER", "", false⟩)
        "host=$HOST;user=$USER" = "host=db1;user=" ∧
      LoadConfiguration (fileWorld hostEnv ⟨"mysql", "host=$HOST;user=$USER", "", false⟩)
        "config/connection_config.json" = .ok ⟨"mysql", "host=db1;user=", "", false⟩ :=
  have h := interpolate_placeholderText
    (fileWorld hostEnv ⟨"mysql", "host=$HOST;user=$USER", "", false⟩)
    "host=".data [("HOST".data, ";user=".data), ("USER".data, [])] (by decide) (by decide)
  ⟨h.1, h.2 "config/connection_config.json" "{}"
    ⟨"mysql", "host=$HOST;user=$USER", "", false⟩ rfl rfl rfl⟩

theorem interpolate_append (w : World ε File α) (a b : String)
    (hb : isWordAt b.data.head? = false) :
    interpolate w (a ++ b) = interpolate w a ++ interpolate w b := by
  apply String.ext
  rw [String.data_append, interpolate_data, interpolate_data, interpolate_data,
    String.data_append]
  exact replaceLoop_append (envRepl w) b.data hb a.data 0 true none (Nat.zero_le _)

/-- C9 as stated does not hold: in a world where no variable is set (the one
named by the empty string included), the pattern does not match at the `$` of
`pw=a$ b`, and the interpolated text is `pw=a$ b`, not `pw=a b`. -/
theorem bare_dollar_removed_fails :
    bareWorld.LookupEnv "" = none ∧
      matchHere connectionPattern (some 'a') "$ b".data = none ∧
      interpolate bareWorld "pw=a$ b" = "pw=a$ b" ∧
      interpolate bareWorld "pw=a$ b" ≠ "pw=a b" := by
  decide

/-- C9 (amended): a `$` that is not followed by a word character (followed by
a space, by another `$`, or at the end of the string) does not match the
placeholder pattern, and in every environment it is copied unchanged into the
interpolated `Connection`, between the interpolations of the text before it
and of the text after it. -/
theorem bare_dollar_kept (w : World ε File α) (pre post : String)
    (hp : isWordAt post.data.head? = false) :
    (∀ prev, matchHere connectionPattern prev ("$" ++ post).data = none) ∧
      interpolate w (pre ++ "$" ++ post)
        = interpolate w pre ++ "$" ++ interpolate w post := by
  have hm : placeholderLen ('$' :: post.data) = none := by
    rw [placeholderLen_cons, hp]
    rfl
  have hdata : ("$" ++ post).data = '$' :: post.data := by
    rw [String.data_append]
    rfl
  constructor
  · intro prev
    rw [hdata, matchHere_connectionPattern, hm]
  · have hone : interpolate w ("$" ++ post) = "$" ++ interpolate w post := by
      apply String.ext
      rw [interpolate_data, hdata, String.data_append, interpolate_data,
        replaceLoop_bare_dollar (envRepl w) true none post.data hp]
      rfl
    have hhead : isWordAt ("$" ++ post).data.head? = false := by
      rw [hdata]
      rfl
    rw [String.append_assoc, interpolate_append w pre ("$" ++ post) hhead, hone,
      String.append_assoc]

theorem bare_dollar_kept_witness :
    (∀ prev, matchHere connectionPattern prev ("$" ++ " b").data = none) ∧
      interpolate bareWorld ("pw=a" ++ "$" ++ " b")
        = interpolate bareWorld "pw=a" ++ "$" ++ interpolate bareWorld " b" :=
  bare_dollar_kept bareWorld "pw=a" " b" (by decide)

/-- C10: interpolation is a single pass.  Around a placeholder `$name` (a
non-empty run of word characters, not continued by the text after it) the
result is the interpolation of the text before it, then the value of `name`
exactly as the environment holds it, then the interpolation of the text after
it; the value itself is never scanned, whatever it contains. -/
theorem interpolate_single_pass (w : World ε File α) (pre name post : String)
    (hne : name ≠ "") (hn : ∀ c ∈ name.data, isWordChar c = true)
    (hp : isWordAt post.data.head? = false) :
    interpolate w (pre ++ "$" ++ name ++ post)
      = interpolate w pre ++ Getenv w name ++ interpolate w post := by
  have hne' : name.data ≠ [] := fun h => hne (String.ext h)
  have hdata : ("$" ++ (name ++ post)).data = '$' :: (name.data ++ post.data) := by
    rw [String.data_append, String.data_append]
    rfl
  have hone : interpolate w ("$" ++ (name ++ post)) = Getenv w name ++ interpolate w post := by
    apply String.ext
    rw [interpolate_data, hdata, String.data_append, interpolate_data,
      replaceLoop_placeholder (envRepl w) true none name.data post.data hne' hn hp, envRepl_dollar]
  have hhead : isWordAt ("$" ++ (name ++ post)).data.head? = false := by
    rw [hdata]
    rfl
  rw [String.append_assoc, String.append_assoc,
    interpolate_append w pre ("$" ++ (name ++ post)) hhead, hone, String.append_assoc]

theorem interpolate_single_pass_witness :
    interpolate (fileWorld nestedEnv ⟨"", "", "", false⟩) "$A" = "$B" ∧
      Getenv (fileWorld nestedEnv ⟨"", "", "", false⟩) "B" = "x" :=
  ⟨interpolate_single_pass (fileWorld nestedEnv ⟨"", "", "", false⟩) "" "A" ""
    (by decide) (by decide) (by decide), by decide⟩

/-! ## Errors of the configuration file -/

theorem LoadConfiguration_open_error {w : World ε File α} {file : String} {err : ε}
    (hopen : w.Open file = .error err) (hne : w.isNotExist err = false) :
    LoadConfiguration w file = .error (.foreign err) := by
  unfold LoadConfiguration
  simp [hopen, hne]

theorem LoadConfiguration_decode_error {w : World ε File α} {file : String} {f : File}
    {err : ε} (hopen : w.Open file = .ok f) (hdec : w.Decode f = .error err) :
    LoadConfiguration w file = .error (.foreign err) := by
  unfold LoadConfiguration
  simp only [hopen, hdec]

theorem checkLocalConfig_of_load_error {w : World ε File α} {e : Error ε}
    (h : LoadConfiguration w (getLocalConfigPath w) = .error e) (req : NewAdapterRequest) :
    checkLocalConfig w req = .error e := by
  unfold checkLocalConfig
  rw [h]

/-- C11: `LoadConfiguration` returns the error `e` exactly when opening the
file fails with an error other than non-existence, or the opened file fails to
decode, `e` being that very error; and when this happens at the configured
path, `checkLocalConfig` fails with the same `e` for every request. -/
theorem LoadConfiguration_error_iff (w : World ε File α) (file : String) (e : Error ε) :
    (LoadConfiguration w file = .error e ↔
        (∃ err, w.Open file = .error err ∧ w.isNotExist err = false ∧ e = .foreign err) ∨
        (∃ f err, w.Open file = .ok f ∧ w.Decode f = .error err ∧ e = .foreign err)) ∧
      (file = getLocalConfigPath w → LoadConfiguration w file = .error e →
        ∀ req : NewAdapterRequest, checkLocalConfig w req = .error e) := by
  constructor
  · constructor
    · intro h
      cases hopen : w.Open file with
      | error err =>
        cases hne : w.isNotExist err with
        | true =>
          rw [LoadConfiguration_absent hopen hne] at h
          exact Except.noConfusion h
        | false =>
          rw [LoadConfiguration_open_error hopen hne] at h
          exact Or.inl ⟨err, rfl, hne, (Except.error.inj h).symm⟩
      | ok f =>
        cases hdec : w.Decode f with
        | error err =>
          rw [LoadConfiguration_decode_error hopen hdec] at h
          exact Or.inr ⟨f, err, rfl, hdec, (Except.error.inj h).symm⟩
        | ok p =>
          rw [LoadConfiguration_parsed hopen hdec] at h
          exact Except.noConfusion h
    · rintro (⟨err, hopen, hne, he⟩ | ⟨f, err, hopen, hdec, he⟩)
      · rw [he]
        exact LoadConfiguration_open_error hopen hne
      · rw [he]
        exact LoadConfiguration_decode_error hopen hdec
  · intro hfile h req
    subst hfile
    exact checkLocalConfig_of_load_error h req

theorem LoadConfiguration_error_iff_witness :
    LoadConfiguration malformedWorld "config/connection_config.json"
        = .error (.foreign "unexpected end of JSON input") ∧
      checkLocalConfig malformedWorld ⟨"mysql", "dsn", true⟩
        = .error (.foreign "unexpected end of JSON input") ∧
      LoadConfiguration deniedWorld "config/connection_config.json"
        = .error (.foreign "permission denied") :=
  have h := LoadConfiguration_error_iff malformedWorld "config/connection_config.json"
    (.foreign "unexpected end of JSON input")
  have hl := h.1.2 (Or.inr ⟨"[1, 2", "unexpected end of JSON input", rfl, rfl, rfl⟩)
  ⟨hl, h.2 (by decide) hl ⟨"mysql", "dsn", true⟩, by decide⟩

/-- C12: when `checkLocalConfig` fails with `e`, `newAdapter` returns `e` and
no adapter, and it does so whatever the file-adapter and ORM-adapter
constructors are. -/
theorem newAdapter_fail_fast (w : World ε File α) (req : NewAdapterRequest) (e : Error ε)
    (h : checkLocalConfig w req = .error e) :
    newAdapter w req = .error e ∧
      ∀ (β : Type) (fileNew : String → β) (gormNew : String → String → Bool → Except ε β),
        newAdapter
          { LookupEnv := w.LookupEnv, Open := w.Open, isNotExist := w.isNotExist,
            Decode := w.Decode, fileNewAdapter := fileNew, gormNewAdapter := gormNew } req
          = .error e := by
  constructor
  · unfold newAdapter newAdapterWith
    rw [h]
  · intro β fileNew gormNew
    have h' : checkLocalConfig
        ({ LookupEnv := w.LookupEnv, Open := w.Open, isNotExist := w.isNotExist,
           Decode := w.Decode, fileNewAdapter := fileNew, gormNewAdapter := gormNew } :
          World ε File β) req = .error e := h
    unfold newAdapter newAdapterWith
    rw [h']

theorem newAdapter_fail_fast_witness :
    newAdapter malformedWorld ⟨"file", "policy.csv", false⟩
        = .error (.foreign "unexpected end of JSON input") ∧
      ∀ (β : Type) (fileNew : String → β) (gormNew : String → String → Bool → Except String β),
        newAdapter
          { LookupEnv := malformedWorld.LookupEnv, Open := malformedWorld.Open,
            isNotExist := malformedWorld.isNotExist, Decode := malformedWorld.Decode,
            fileNewAdapter := fileNew, gormNewAdapter := gormNew }
          ⟨"file", "policy.csv", false⟩
          = .error (.foreign "unexpected end of JSON input") :=
  newAdapter_fail_fast malformedWorld ⟨"file", "policy.csv", false⟩
    (.foreign "unexpected end of JSON input") (by decide)

/-! ## The configuration used when none is given -/

theorem newAdapter_of_missing_file {w : World ε File α} {e : ε}
    (hopen : w.Open (getLocalConfigPath w) = .error e) (hne : w.isNotExist e = true)
    (req : NewAdapterRequest) (hc : req.ConnectString = "") :
    checkLocalConfig w req = .ok { DriverName := "", ConnectString := "", DbSpecified := false } ∧
      newAdapter w req = .error .errDriverName := by
  have hcheck : checkLocalConfig w req
      = .ok { DriverName := "", ConnectString := "", DbSpecified := false } := by
    rw [checkLocalConfig_of_load (LoadConfiguration_absent hopen hne) req, if_pos (Or.inl hc)]
  refine ⟨hcheck, ?_⟩
  unfold newAdapter
  rw [newAdapterWith_of_check hcheck, if_neg (by decide), if_neg (by decide)]

/-- C13 as stated does not hold: with no configuration file and a request that
names no driver and no connection, the configuration `LoadConfiguration`
supplies does not select the `file` driver and `newAdapter` does not return
the file adapter; its driver name is empty and `newAdapter` fails with
`errDriverName`. -/
theorem missing_file_default_is_not_file_mode :
    ¬ ∀ (w : World String String String) (e : String) (req : NewAdapterRequest),
      w.Open (getLocalConfigPath w) = .error e → w.isNotExist e = true →
      req.DriverName = "" → req.ConnectString = "" →
      ∃ cfg, LoadConfiguration w (getLocalConfigPath w) = .ok cfg ∧ cfg.Driver = "file" ∧
        newAdapter w req = .ok (w.fileNewAdapter cfg.Connection) := by
  intro h
  obtain ⟨cfg, -, -, hnew⟩ := h bareWorld "no such file" ⟨"", "", false⟩ rfl (by decide) rfl rfl
  have herr : newAdapter bareWorld ⟨"", "", false⟩ = .error .errDriverName := by decide
  rw [herr] at hnew
  exact Except.noConfusion hnew

/-- C13 (amended): when the client provides no custom adapter (`DriverName`
and `ConnectString` both empty) and no configuration file exists, the
configuration `LoadConfiguration` supplies is the zero-valued one, whose driver
name is empty; the resolved request is `("", "", false)` and `newAdapter` fails
with `errDriverName`, whatever the two adapter constructors are. -/
theorem missing_file_default_is_rejected (w : World ε File α) (e : ε)
    (req : NewAdapterRequest)
    (hopen : w.Open (getLocalConfigPath w) = .error e) (hne : w.isNotExist e = true)
    (_hd : req.DriverName = "") (hc : req.ConnectString = "") :
    LoadConfiguration w (getLocalConfigPath w)
        = .ok { Driver := "", Connection := "", Enforcer := "", DBSpecified := false } ∧
      checkLocalConfig w req
        = .ok { DriverName := "", ConnectString := "", DbSpecified := false } ∧
      newAdapter w req = .error .errDriverName ∧
      ∀ (β : Type) (fileNew : String → β) (gormNew : String → String → Bool → Except ε β),
        newAdapter
          { LookupEnv := w.LookupEnv, Open := w.Open, isNotExist := w.isNotExist,
            Decode := w.Decode, fileNewAdapter := fileNew, gormNewAdapter := gormNew } req
          = .error .errDriverName := by
  refine ⟨LoadConfiguration_absent hopen hne, (newAdapter_of_missing_file hopen hne req hc).1,
    (newAdapter_of_missing_file hopen hne req hc).2, ?_⟩
  intro β fileNew gormNew
  exact (@newAdapter_of_missing_file ε File β
    { LookupEnv := w.LookupEnv, Open := w.Open, isNotExist := w.isNotExist,
      Decode := w.Decode, fileNewAdapter := fileNew, gormNewAdapter := gormNew }
    e hopen hne req hc).2

theorem missing_file_default_is_rejected_witness :
    LoadConfiguration bareWorld (getLocalConfigPath bareWorld) = .ok ⟨"", "", "", false⟩ ∧
      checkLocalConfig bareWorld ⟨"", "", true⟩ = .ok ⟨"", "", false⟩ ∧
      newAdapter bareWorld ⟨"", "", true⟩ = .error .errDriverName ∧
      ∀ (β : Type) (fileNew : String → β) (gormNew : String → String → Bool → Except String β),
        newAdapter
          { LookupEnv := bareWorld.LookupEnv, Open := bareWorld.Open,
            isNotExist := bareWorld.isNotExist, Decode := bareWorld.Decode,
            fileNewAdapter := fileNew, gormNewAdapter := gormNew } ⟨"", "", true⟩
          = .error .errDriverName :=
  missing_file_default_is_rejected bareWorld "no such file" ⟨"", "", true⟩ rfl (by decide)
    rfl rfl

/-- C14: for a file that opens and decodes to `p`, the configuration returned
by `LoadConfiguration` has the `Driver`, `Enforcer` and `DBSpecified` of `p`,
whatever those strings contain and whatever the environment holds. -/
theorem LoadConfiguration_keeps_other_fields (w : World ε File α) (file : String) (f : File)
    (p : Config) (hopen : w.Open file = .ok f) (hdec : w.Decode f = .ok p) :
    ∃ c, LoadConfiguration w file = .ok c ∧ c.Driver = p.Driver ∧ c.Enforcer = p.Enforcer ∧
      c.DBSpecified = p.DBSpecified :=
  ⟨_, LoadConfiguration_parsed hopen hdec, rfl, rfl, rfl⟩

theorem LoadConfiguration_keeps_other_fields_witness :
    hostEnv "HOST" = some "db1" ∧
      ∃ c, LoadConfiguration (fileWorld hostEnv ⟨"$HOST", "host=$HOST", "$HOST", true⟩)
          "config/connection_config.json" = .ok c ∧
        c.Driver = "$HOST" ∧ c.Enforcer = "$HOST" ∧ c.DBSpecified = true :=
  ⟨by decide, LoadConfiguration_keeps_other_fields
    (fileWorld hostEnv ⟨"$HOST", "host=$HOST", "$HOST", true⟩)
    "config/connection_config.json" "{}" ⟨"$HOST", "host=$HOST", "$HOST", true⟩ rfl rfl⟩

/-- C15 as stated does not hold: when `CONNECTION_CONFIG_PATH` is set to the
empty string, `getLocalConfigPath` returns the default path and not the value
of the variable. -/
theorem getLocalConfigPath_set_value_fails :
    ¬ ∀ w : World String String String,
      getLocalConfigPath w =
        match w.LookupEnv "CONNECTION_CONFIG_PATH" with
        | some v => v
        | none => "config/connection_config.json" := by
  intro h
  exact absurd (h (fileWorld emptyPathEnv ⟨"", "", "", false⟩)) (by decide)

/-- C15 (amended): `getLocalConfigPath` returns the value of
`CONNECTION_CONFIG_PATH` whenever that variable is set to a non-empty string,
and the default `config/connection_config.json` when it is unset or set to the
empty string. -/
theorem getLocalConfigPath_spec (w : World ε File α) :
    (∀ v, w.LookupEnv "CONNECTION_CONFIG_PATH" = some v → v ≠ "" →
        getLocalConfigPath w = v) ∧
      (w.LookupEnv "CONNECTION_CONFIG_PATH" = none ∨
          w.LookupEnv "CONNECTION_CONFIG_PATH" = some "" →
        getLocalConfigPath w = "config/connection_config.json") := by
  constructor
  · intro v hv hne
    have hg : Getenv w configFilePathEnvironmentVariable = v := by
      unfold Getenv configFilePathEnvironmentVariable
      rw [hv]
      rfl
    unfold getLocalConfigPath
    simp only [hg, if_neg hne]
  · intro hv
    have hg : Getenv w configFilePathEnvironmentVariable = "" := by
      unfold Getenv configFilePathEnvironmentVariable
      rcases hv with hv | hv <;> rw [hv] <;> rfl
    unfold getLocalConfigPath
    simp only [hg, if_true]
    rfl

theorem getLocalConfigPath_spec_witness :
    getLocalConfigPath (fileWorld customPathEnv ⟨"", "", "", false⟩) = "/etc/casbin.json" ∧
      getLocalConfigPath (fileWorld emptyPathEnv ⟨"", "", "", false⟩)
        = "config/connection_config.json" ∧
      getLocalConfigPath bareWorld = "config/connection_config.json" :=
  ⟨(getLocalConfigPath_spec (fileWorld customPathEnv ⟨"", "", "", false⟩)).1
      "/etc/casbin.json" rfl (by decide),
    (getLocalConfigPath_spec (fileWorld emptyPathEnv ⟨"", "", "", false⟩)).2 (Or.inr rfl),
    (getLocalConfigPath_spec bareWorld).2 (Or.inl rfl)⟩

/-- C16: when the configuration loads as `cfg` and at least one of the
request's `DriverName` and `ConnectString` is empty, `checkLocalConfig` returns
exactly `cfg.Driver`, `cfg.Connection` and `cfg.DBSpecified`; nothing of the
caller's three fields survives. -/
theorem checkLocalConfig_incomplete_request_overwritten (w : World ε File α)
    (req : NewAdapterRequest) (cfg : Config)
    (h : LoadConfiguration w (getLocalConfigPath w) = .ok cfg)
    (hc : req.DriverName = "" ∨ req.ConnectString = "") :
    checkLocalConfig w req = .ok
      { DriverName := cfg.Driver, ConnectString := cfg.Connection,
        DbSpecified := cfg.DBSpecified } := by
  rw [checkLocalConfig_of_load h req, if_pos hc.symm]

theorem checkLocalConfig_incomplete_request_overwritten_witness :
    checkLocalConfig (fileWorld hostEnv ⟨"postgres", "host=$HOST", "e", false⟩)
      ⟨"mysql", "", true⟩ = .ok ⟨"postgres", "host=db1", false⟩ :=
  checkLocalConfig_incomplete_request_overwritten
    (fileWorld hostEnv ⟨"postgres", "host=$HOST", "e", false⟩) ⟨"mysql", "", true⟩
    ⟨"postgres", "host=db1", "e", false⟩ (by decide) (Or.inr rfl)

/-! ## Every placeholder is a maximal run -/

theorem head_dropWhile_word (l : List Char) :
    isWordAt (l.dropWhile isWordChar).head? = false := by
  induction l with
  | nil => rfl
  | cons c cs ih =>
    by_cases hc : isWordChar c = true
    · rw [List.dropWhile_cons_of_pos hc]
      exact ih
    · rw [List.dropWhile_cons_of_neg hc]
      simpa [isWordAt] using hc

theorem bareOnly_cons (c : Char) (cs : List Char) :
    bareOnly (c :: cs) = ((c != '$' || !isWordAt cs.head?) && bareOnly cs) := rfl

theorem bareOnly_tail {c : Char} {cs : List Char} (h : bareOnly (c :: cs) = true) :
    bareOnly cs = true := by
  rw [bareOnly_cons, Bool.and_eq_true] at h
  exact h.2

theorem bareOnly_dropWhile (l : List Char) (h : bareOnly l = true) :
    bareOnly (l.dropWhile isWordChar) = true := by
  induction l with
  | nil => rfl
  | cons c cs ih =>
    by_cases hc : isWordChar c = true
    · rw [List.dropWhile_cons_of_pos hc]
      exact ih (bareOnly_tail h)
    · rw [List.dropWhile_cons_of_neg hc]
      exact h

theorem placeholderLen_of_bareOnly {c : Char} {cs : List Char}
    (h : bareOnly (c :: cs) = true) : placeholderLen (c :: cs) = none := by
  rw [bareOnly_cons, Bool.and_eq_true] at h
  rw [placeholderLen_cons, if_neg]
  rintro ⟨hc, hw⟩
  have h1 := h.1
  rw [hc, hw] at h1
  exact absurd h1 (by decide)

theorem replaceLoop_bareOnly (repl : List Char → List Char) (r : List Char)
    (hr : isWordAt r.head? = false) :
    ∀ (l : List Char) (fresh : Bool) (prev : Option Char), bareOnly l = true →
      replaceLoop connectionPattern repl 0 fresh prev (l ++ r)
        = l ++ replaceLoop connectionPattern repl 0 true none r := by
  intro l
  induction l with
  | nil =>
    intro fresh prev _
    exact replaceLoop_prev repl 0 fresh prev r
  | cons c cs ih =>
    intro fresh prev hl
    have hm : placeholderLen (c :: (cs ++ r)) = none := by
      have happ : placeholderLen (c :: (cs ++ r)) = placeholderLen (c :: cs) :=
        placeholderLen_append (c :: cs) r (List.cons_ne_nil c cs) hr
      rw [happ]
      exact placeholderLen_of_bareOnly hl
    rw [List.cons_append, replaceLoop_copy repl fresh prev hm,
      ih true (some c) (bareOnly_tail hl), List.cons_append]

theorem placeholderText_append (a b : List Char) (segs : List (List Char × List Char)) :
    placeholderText (a ++ b) segs = a ++ placeholderText b segs := by
  cases segs with
  | nil => rfl
  | cons seg segs =>
    obtain ⟨n, l⟩ := seg
    show (a ++ b) ++ '$' :: (n ++ placeholderText l segs)
      = a ++ (b ++ '$' :: (n ++ placeholderText l segs))
    rw [List.append_assoc]

theorem replaceLoop_segments (w : World ε File α) (segs : List (List Char × List Char)) :
    ∀ l0 : List Char, bareOnly l0 = true →
      (∀ seg ∈ segs, seg.1 ≠ [] ∧ (∀ c ∈ seg.1, isWordChar c = true) ∧
        isWordAt seg.2.head? = false ∧ bareOnly seg.2 = true) →
      replaceLoop connectionPattern (envRepl w) 0 true none (placeholderText l0 segs)
        = substitutedText w l0 segs := by
  induction segs with
  | nil =>
    intro l0 h0 _
    have h := replaceLoop_bareOnly (envRepl w) [] rfl l0 true none h0
    rw [List.append_nil, replaceLoop_nil, List.append_nil] at h
    exact h
  | cons seg segs ih =>
    intro l0 h0 hs
    obtain ⟨n, l⟩ := seg
    obtain ⟨hne, hn, hhead, hl⟩ := hs (n, l) (List.mem_cons_self _ _)
    have hrest := ih l hl (fun seg hmem => hs seg (List.mem_cons_of_mem _ hmem))
    show replaceLoop connectionPattern (envRepl w) 0 true none
        (l0 ++ '$' :: (n ++ placeholderText l segs))
      = l0 ++ ((Getenv w (String.mk n)).data ++ substitutedText w l segs)
    rw [replaceLoop_bareOnly (envRepl w) ('$' :: (n ++ placeholderText l segs)) rfl l0 true none
        h0,
      replaceLoop_placeholder (envRepl w) true none n _ hne hn
        (head_placeholderText l segs hhead),
      envRepl_dollar, hrest]

theorem splitPlaceholders_cons (c : Char) (cs : List Char) :
    splitPlaceholders (c :: cs)
      = if c = '$' ∧ isWordAt (splitPlaceholders cs).1.head? = true then
          ([], ((splitPlaceholders cs).1.takeWhile isWordChar,
            (splitPlaceholders cs).1.dropWhile isWordChar) :: (splitPlaceholders cs).2)
        else (c :: (splitPlaceholders cs).1, (splitPlaceholders cs).2) := rfl

theorem splitPlaceholders_spec (s : List Char) :
    placeholderText (splitPlaceholders s).1 (splitPlaceholders s).2 = s ∧
      bareOnly (splitPlaceholders s).1 = true ∧
      ∀ seg ∈ (splitPlaceholders s).2, seg.1 ≠ [] ∧ (∀ c ∈ seg.1, isWordChar c = true) ∧
        isWordAt seg.2.head? = false ∧ bareOnly seg.2 = true := by
  induction s with
  | nil => exact ⟨rfl, rfl, fun seg h => absurd h (List.not_mem_nil seg)⟩
  | cons c cs ih =>
    obtain ⟨htext, hbare, hsegs⟩ := ih
    rw [splitPlaceholders_cons]
    by_cases hc : c = '$' ∧ isWordAt (splitPlaceholders cs).1.head? = true
    · rw [if_pos hc]
      refine ⟨?_, rfl, ?_⟩
      · show [] ++ '$' :: ((splitPlaceholders cs).1.takeWhile isWordChar
            ++ placeholderText ((splitPlaceholders cs).1.dropWhile isWordChar)
              (splitPlaceholders cs).2) = c :: cs
        rw [← placeholderText_append, List.takeWhile_append_dropWhile, htext, hc.1]
        rfl
      · intro seg hmem
        rcases List.mem_cons.mp hmem with hseg | hmem'
        · subst hseg
          refine ⟨?_, fun x hx => List.mem_takeWhile_imp hx, head_dropWhile_word _,
            bareOnly_dropWhile _ hbare⟩
          intro hnil
          have hw := hc.2
          cases hl : (splitPlaceholders cs).1 with
          | nil =>
            rw [hl] at hw
            exact absurd hw (by decide)
          | cons x xs =>
            rw [hl] at hw hnil
            have hx : isWordChar x = true := hw
            rw [List.takeWhile_cons, if_pos hx] at hnil
            exact List.cons_ne_nil _ _ hnil
        · exact hsegs seg hmem'
    · rw [if_neg hc]
      refine ⟨?_, ?_, hsegs⟩
      · show placeholderText ([c] ++ (splitPlaceholders cs).1) (splitPlaceholders cs).2 = c :: cs
        rw [placeholderText_append, htext]
        rfl
      · rw [bareOnly_cons, hbare, Bool.and_true]
        by_cases hd : c = '$'
        · have hw : isWordAt (splitPlaceholders cs).1.head? = false := by
            cases hh : isWordAt (splitPlaceholders cs).1.head? with
            | false => rfl
            | true => exact absurd ⟨hd, hh⟩ hc
          rw [hw]
          simp
        · simp [hd]

theorem matchHere_is_maximal_run (prev : Option Char) (t : List Char) (n : Nat)
    (h : matchHere connectionPattern prev t = some n) :
    ∃ name rest, t = '$' :: (name ++ rest) ∧ name ≠ [] ∧
      (∀ c ∈ name, isWordChar c = true) ∧ isWordAt rest.head? = false ∧
      n = name.length + 1 := by
  rw [matchHere_connectionPattern] at h
  cases t with
  | nil => exact Option.noConfusion h
  | cons x xs =>
    rw [placeholderLen_cons] at h
    by_cases hc : x = '$' ∧ isWordAt xs.head? = true
    · rw [if_pos hc] at h
      refine ⟨xs.takeWhile isWordChar, xs.dropWhile isWordChar, ?_, ?_,
        fun c hx => List.mem_takeWhile_imp hx, head_dropWhile_word xs,
        (Option.some.inj h).symm⟩
      · rw [List.takeWhile_append_dropWhile, hc.1]
      · intro hnil
        have hw := hc.2
        cases xs with
        | nil => exact absurd hw (by decide)
        | cons y ys =>
          have hy : isWordChar y = true := hw
          rw [List.takeWhile_cons, if_pos hy] at hnil
          exact List.cons_ne_nil _ _ hnil
    · rw [if_neg hc] at h
      exact Option.noConfusion h

/-- C17: wherever the pattern matches, the match is a `$` followed by a
non-empty run of word characters that the next character does not continue;
and every connection string splits as `l0 $n1 l1 ... $nk lk` where each name is
such a maximal non-empty run and no literal holds a `$` followed by a word
character, the interpolation being `l0 v1 l1 ... vk lk` in every environment:
the names looked up are exactly the `ni`, and the literals, bare `$`
included, are kept unchanged and in order. -/
theorem interpolate_maximal_placeholders (s : String) :
    (∀ (prev : Option Char) (t : List Char) (n : Nat),
        matchHere connectionPattern prev t = some n →
        ∃ name rest, t = '$' :: (name ++ rest) ∧ name ≠ [] ∧
          (∀ c ∈ name, isWordChar c = true) ∧ isWordAt rest.head? = false ∧
          n = name.length + 1) ∧
      ∃ (l0 : List Char) (segs : List (List Char × List Char)),
        s.data = placeholderText l0 segs ∧ bareOnly l0 = true ∧
        (∀ seg ∈ segs, seg.1 ≠ [] ∧ (∀ c ∈ seg.1, isWordChar c = true) ∧
          isWordAt seg.2.head? = false ∧ bareOnly seg.2 = true) ∧
        ∀ (ε₁ F₁ α₁ : Type) (w : World ε₁ F₁ α₁),
          interpolate w s = String.mk (substitutedText w l0 segs) := by
  refine ⟨matchHere_is_maximal_run, (splitPlaceholders s.data).1,
    (splitPlaceholders s.data).2, ?_⟩
  obtain ⟨htext, hbare, hsegs⟩ := splitPlaceholders_spec s.data
  refine ⟨htext.symm, hbare, hsegs, ?_⟩
  intro ε₁ F₁ α₁ w
  apply String.ext
  rw [interpolate_data]
  have h := replaceLoop_segments w (splitPlaceholders s.data).2 (splitPlaceholders s.data).1
    hbare hsegs
  rw [htext] at h
  exact h

theorem interpolate_maximal_placeholders_witness :
    (∃ name rest, "$HOST1;".data = '$' :: (name ++ rest) ∧ name ≠ [] ∧
        (∀ c ∈ name, isWordChar c = true) ∧ isWordAt rest.head? = false ∧
        6 = name.length + 1) ∧
      interpolate (fileWorld numberedEnv ⟨"", "", "", false⟩) "$HOST1;" = "h1;" ∧
      interpolate (fileWorld numberedEnv ⟨"", "", "", false⟩) "a$ $$HOST" = "a$ $h" :=
  ⟨(interpolate_maximal_placeholders "$HOST1;").1 none "$HOST1;".data 6 (by decide),
    by decide, by decide⟩

end Casbin
